import Mathlib

/-!
Verification of the FleetPulse MCP aggregation layer.

A shallow embedding of the fleet-aggregation client of the FleetPulse
repository (`mcp/client.py` and `mcp/tools.py`), together with theorems
settling the specification claims about it.

Modelling conventions:
* Python strings are modelled as `List Char` (`PyStr`): Python compares
  strings lexicographically by code point, `in` is substring containment,
  and `.lower()` maps characters to lower case.
* Python's stable `list.sort(key=..., reverse=...)` is modelled by a stable
  insertion sort (`pySort`) whose placement test `ple a b` says "`a`, the
  earlier element, may stay in front of `b`".
* Python `dict` insertion order and the first-seen order of keys are
  modelled by `firstSeenDedup`.  Iteration order of a Python `set` is
  hash-dependent and unspecified; where the code iterates over a set we
  model it as first-seen order and say so at the use site.
* `async` functions are sequential in the source (awaited one at a time),
  so they embed as plain functions; exceptions embed as `Except`.
* The fixed relevance-score ladder {1.0, 0.9, 0.8, 0.7} of floats is
  modelled by the naturals {10, 9, 8, 7} (scores are only ever compared,
  and the ladder order coincides).
-/

abbrev PyStr := List Char

/-- Lexicographic code-point comparison of Python strings (`s < t`). -/
def pyStrLt : PyStr → PyStr → Bool
  | [], [] => false
  | [], _ :: _ => true
  | _ :: _, [] => false
  | a :: as, b :: bs => if a < b then true else if b < a then false else pyStrLt as bs

/-- Python `s.lower()` (ASCII-adequate model). -/
def pyLower (s : PyStr) : PyStr := s.map Char.toLower

/-- Python `needle in hay` for strings: substring containment. -/
def pyIn (needle hay : PyStr) : Bool := decide (needle <:+: hay)

/-- Keys of a Python `dict` / first-seen deduplication, with an accumulator
of already-seen elements. -/
def firstSeenDedupAux [DecidableEq α] (seen : List α) : List α → List α
  | [] => []
  | a :: l => if a ∈ seen then firstSeenDedupAux seen l
              else a :: firstSeenDedupAux (a :: seen) l

/-- First-seen deduplication: the insertion order of Python `dict` keys. -/
def firstSeenDedup [DecidableEq α] (l : List α) : List α :=
  firstSeenDedupAux [] l

/-- Insert `a` in front of the first element `b` with `ple a b`
(`ple a b` = "`a` may be placed before `b`"). -/
def pyOrderedInsert (ple : α → α → Bool) (a : α) : List α → List α
  | [] => [a]
  | b :: l => if ple a b then a :: b :: l else b :: pyOrderedInsert ple a l

/-- Stable insertion sort: the model of Python's stable `list.sort`.
The head (earliest element) is inserted into the sorted tail, landing in
front of later elements it compares equal to. -/
def pySort (ple : α → α → Bool) : List α → List α
  | [] => []
  | a :: l => pyOrderedInsert ple a (pySort ple l)

/-! ## Data model (mcp/models.py, record dicts of the backend API)

A backend history record is consumed through `dict.get(key, '')`, so every
field is modelled as a total `PyStr` (a missing key is the empty string). -/

structure URecord where
  hostname : PyStr
  os : PyStr
  update_date : PyStr
  name : PyStr
  old_version : PyStr
  new_version : PyStr
deriving DecidableEq

/-! ## Backend HTTP client (mcp/client.py) -/

/-- An HTTP response as seen by `_make_request`: status code and body text. -/
structure HttpResponse where
  status : Nat
  body : PyStr
deriving DecidableEq

/-- Result of `_make_request`: the returned response, a raised
`BackendHTTPError` (status and body), or a raised `BackendConnectionError`
(whose message carries the number of attempts made). -/
inductive ReqResult where
  | success (resp : HttpResponse)
  | httpError (status : Nat) (body : PyStr)
  | connError (attempts : Nat)
deriving DecidableEq

/-- Model of `FleetPulseBackendClient._make_request`.  `out i` is the outcome of
attempt `i` (`none` = connection failure/timeout, `some r` = response `r`).
Returns the result together with the list of backoff waits
(`2 ^ retry_count` seconds before each retry), in order. -/
def make_request (out : Nat → Option HttpResponse) (maxRetries : Nat)
    (retryCount : Nat) : ReqResult × List Nat :=
  match out retryCount with
  | some r =>
    if 400 ≤ r.status then
      -- Retry on 5xx errors
      if h5 : 500 ≤ r.status ∧ retryCount < maxRetries then
        let rest := make_request out maxRetries (retryCount + 1)
        (rest.1, 2 ^ retryCount :: rest.2)
      else
        .mk (.httpError r.status r.body) []
    else
      .mk (.success r) []
  | none =>
    -- Retry on connection errors
    if hc : retryCount < maxRetries then
      let rest := make_request out maxRetries (retryCount + 1)
      (rest.1, 2 ^ retryCount :: rest.2)
    else
      .mk (.connError (retryCount + 1)) []
termination_by maxRetries - retryCount
decreasing_by
  · omega
  · omega

/-- Typed errors of the client, as observed by callers of
`get_host_history`: `BackendHTTPError` (with its status code) or
`BackendConnectionError`. -/
inductive BackendError where
  | httpError (status : Nat)
  | connError
deriving DecidableEq

/-- Outcome of one `get_host_history(hostname, ..., limit, offset)` call. -/
abbrev FetchResult := Except BackendError (List URecord)

/-- The per-host loop of `get_all_updates` (fleet-wide branch):
`fetch h limit offset` is the backend's answer for host `h`.  Each host is
fetched with the caller's `limit` and `offset = 0`; a 404 host is skipped
silently, any other `BackendHTTPError` is logged and skipped (the returned
second component collects the logged hosts in iteration order), and a
`BackendConnectionError` propagates. -/
def aggregate_hosts (fetch : PyStr → Nat → Nat → FetchResult) (limit : Nat) :
    List PyStr → Except BackendError (List URecord × List PyStr)
  | [] => .ok ([], [])
  | h :: rest =>
    match fetch h limit 0 with
    | .ok items =>
      match aggregate_hosts fetch limit rest with
      | .ok (tl, log) => .ok (items ++ tl, log)
      | .error e => .error e
    | .error (.httpError s) =>
      if s = 404 then aggregate_hosts fetch limit rest  -- skip silently
      else
        -- log the failure and continue
        match aggregate_hosts fetch limit rest with
        | .ok (tl, log) => .ok (tl, h :: log)
        | .error e => .error e
    | .error .connError => .error .connError

/-- Model of `all_updates.sort(key=..., reverse=True)` on `update_date`
followed by the slice `all_updates[offset : offset + limit]`. -/
def sortAndPaginate (l : List URecord) (limit offset : Nat) : List URecord :=
  ((pySort (fun a b => ! pyStrLt a.update_date b.update_date) l).drop offset).take limit

/-- Fleet-wide branch of `get_all_updates`: enumerate hosts, aggregate,
sort by date descending, paginate. -/
def fleetUpdates (fetch : PyStr → Nat → Nat → FetchResult) (hosts : List PyStr)
    (limit offset : Nat) : Except BackendError (List URecord) :=
  match aggregate_hosts fetch limit hosts with
  | .ok (allUpdates, _) => .ok (sortAndPaginate allUpdates limit offset)
  | .error e => .error e

/-- Model of `FleetPulseBackendClient.get_all_updates`.  `hosts` is the roster
returned by `list_hosts`.  `if hostname:` is Python truthiness, so an empty
hostname also takes the fleet-wide branch. -/
def get_all_updates (fetch : PyStr → Nat → Nat → FetchResult)
    (hosts : List PyStr) (limit offset : Nat) (hostname : Option PyStr) :
    Except BackendError (List URecord) :=
  match hostname with
  | some h =>
    if h = [] then fleetUpdates fetch hosts limit offset
    else
      match fetch h limit offset with
      | .ok history => .ok history
      | .error (.httpError s) =>
        if s = 404 then .ok []  -- Host not found
        else .error (.httpError s)
      | .error .connError => .error .connError
  | none => fleetUpdates fetch hosts limit offset

/-! ## MCP tools (mcp/tools.py)

The tools are embedded as functions of the data the client calls return:
`updates` is the record list produced by `get_all_updates`, `hosts` the
roster from `list_hosts`, and `parse` models `datetime.date.fromisoformat`
(dates as integer ordinals; `none` = `ValueError`). -/

/-- Model of `Counter(l).most_common(1)[0][0]`: `most_common` sorts the counter's
keys (in first-seen order) stably by descending count, so the head is the
first key attaining the maximal count; `none` when `l` is empty. -/
def counterMostCommonOne (l : List PyStr) : Option PyStr :=
  (firstSeenDedup l).foldl
    (fun acc k =>
      match acc with
      | none => some k
      | some m => if l.count k > l.count m then some k else acc)
    none

/-- Model of `Counter(l).most_common(k)`: keys stably sorted by descending count,
paired with their counts, truncated to `k`. -/
def counterMostCommon (l : List PyStr) (k : Nat) : List (PyStr × Nat) :=
  ((pySort (fun a b => decide (l.count b ≤ l.count a)) (firstSeenDedup l)).map
    (fun key => (key, l.count key))).take k

/-- Model of `mcp/models.py` `PackageInfo` (dates as integer ordinals). -/
structure PackageInfo where
  name : PyStr
  current_version : Option PyStr
  hosts : List PyStr
  last_updated : Option Int
deriving DecidableEq

/-- The updates that touched the `packages_map[n]` entry in
`list_packages`, and the matching updates of `get_package_details`:
those whose `name` equals `n`. -/
def recordsForPackage (updates : List URecord) (n : PyStr) : List URecord :=
  updates.filter (fun u => u.name = n)

/-- The `versions` set of `list_packages` (nonempty `new_version`s,
deduplicated; Python set iteration is hash-dependent, modelled here as
first-seen order — every count over it is 1 regardless of the order). -/
def versionsSetOf (recs : List URecord) : List PyStr :=
  firstSeenDedup (recs.filterMap
    (fun u => if u.new_version = [] then none else some u.new_version))

/-- The `versions` list of `get_package_details` (nonempty `new_version`s,
appended in record order, multiplicities kept). -/
def versionsListOf (recs : List URecord) : List PyStr :=
  recs.filterMap (fun u => if u.new_version = [] then none else some u.new_version)

/-- The `last_updated` accumulator shared by `list_packages` and
`get_package_details`: maximum parseable update date, unparseable and
missing dates skipped. -/
def lastUpdatedOf (parse : PyStr → Option Int) (recs : List URecord) : Option Int :=
  recs.foldl
    (fun acc u =>
      if u.update_date = [] then acc
      else
        match parse u.update_date with
        | some d =>
          match acc with
          | none => some d
          | some m => if d > m then some d else acc
        | none => acc)
    none

/-- Model of `MCPTools.list_packages`, as a function of the fetched updates. -/
def list_packages (parse : PyStr → Option Int) (updates : List URecord) :
    List PackageInfo :=
  let names := firstSeenDedup (updates.filterMap
    (fun u => if u.name = [] then none else some u.name))
  let pkgs := names.map (fun n =>
    let recs := recordsForPackage updates n
    { name := n
      -- "Use most common version as current version":
      -- Counter over the *set* of versions
      current_version := counterMostCommonOne (versionsSetOf recs)
      hosts := firstSeenDedup (recs.map (·.hostname))
      last_updated := lastUpdatedOf parse recs : PackageInfo })
  -- packages.sort(key=lambda p: p.name)
  pySort (fun a b => ! pyStrLt b.name a.name) pkgs

/-- Model of `MCPTools.get_package_details`, as a function of the updates returned
by `get_all_updates(package=package_name, limit=10000)`.  The not-found
check precedes the exact-name filtering. -/
def get_package_details (parse : PyStr → Option Int) (package_name : PyStr)
    (updates : List URecord) : Except PyStr PackageInfo :=
  if updates = [] then .error ("Package not found: ".toList ++ package_name)
  else
    let recs := recordsForPackage updates package_name
    .ok { name := package_name
          -- Counter over the versions *list*: the true stable mode
          current_version := counterMostCommonOne (versionsListOf recs)
          hosts := firstSeenDedup (recs.map (·.hostname))
          last_updated := lastUpdatedOf parse recs }

/-- One entry of the `recent_activity` feed. -/
structure Activity where
  date : PyStr
  hostname : PyStr
  package : PyStr
  old_version : PyStr
  new_version : PyStr
deriving DecidableEq

/-- Model of `mcp/models.py` `FleetStatistics` (`most_updated_packages` entries as
(package, update_count) pairs). -/
structure FleetStatistics where
  total_hosts : Nat
  total_reports : Nat
  total_packages : Nat
  active_hosts_last_7_days : Nat
  active_hosts_last_30_days : Nat
  most_updated_packages : List (PyStr × Nat)
  recent_activity : List Activity
deriving DecidableEq

/-- Hostnames added to an `active_hosts_*` set: one per record whose
`update_date` is nonempty, parses, and is `≥ cutoff`. -/
def activeHostnames (parse : PyStr → Option Int) (cutoff : Int)
    (updates : List URecord) : List PyStr :=
  updates.filterMap (fun u =>
    if u.update_date = [] then none
    else
      match parse u.update_date with
      | some d => if cutoff ≤ d then some u.hostname else none
      | none => none)

/-- The `active_hosts_7d` / `active_hosts_30d` set (as a first-seen list;
only membership and size are ever used). -/
def activeHostsSet (parse : PyStr → Option Int) (cutoff : Int)
    (updates : List URecord) : List PyStr :=
  firstSeenDedup (activeHostnames parse cutoff updates)

/-- Names fed to `package_counts`: records with a nonempty, parseable
`update_date` and a nonempty package name (the counter is updated inside
the date-parsing `try` block, with no cutoff condition). -/
def countedPackageNames (parse : PyStr → Option Int)
    (updates : List URecord) : List PyStr :=
  updates.filterMap (fun u =>
    if u.update_date = [] then none
    else
      match parse u.update_date with
      | some _ => if u.name = [] then none else some u.name
      | none => none)

/-- Entries appended to `recent_activity`: records with a nonempty,
parseable `update_date` within the last 7 days. -/
def recentActivityEntries (parse : PyStr → Option Int) (sevenCutoff : Int)
    (updates : List URecord) : List Activity :=
  updates.filterMap (fun u =>
    if u.update_date = [] then none
    else
      match parse u.update_date with
      | some d =>
        if sevenCutoff ≤ d then
          some ⟨u.update_date, u.hostname, u.name, u.old_version, u.new_version⟩
        else none
      | none => none)

/-- The `unique_packages` set of `get_fleet_statistics`: distinct nonempty
package names over all records, regardless of their dates. -/
def uniquePackages (all_updates : List URecord) : List PyStr :=
  firstSeenDedup (all_updates.filterMap
    (fun u => if u.name = [] then none else some u.name))

/-- Model of `MCPTools.get_fleet_statistics`, as a function of the host roster and
the fetched updates; `today` is `date.today()`. -/
def get_fleet_statistics (parse : PyStr → Option Int) (today : Int)
    (hosts : List PyStr) (all_updates : List URecord) : FleetStatistics :=
  let seven_days_ago := today - 7
  let thirty_days_ago := today - 30
  let recent := pySort (fun a b => ! pyStrLt a.date b.date)
    (recentActivityEntries parse seven_days_ago all_updates)
  { total_hosts := hosts.length
    total_reports := all_updates.length
    total_packages := (uniquePackages all_updates).length
    active_hosts_last_7_days := (activeHostsSet parse seven_days_ago all_updates).length
    active_hosts_last_30_days := (activeHostsSet parse thirty_days_ago all_updates).length
    most_updated_packages := counterMostCommon (countedPackageNames parse all_updates) 10
    recent_activity := recent.take 20 }

/-! ## Search (MCPTools.search) -/

/-- Model of `mcp/models.py` `Host` (dates as integer ordinals). -/
structure Host where
  hostname : PyStr
  os : PyStr
  last_update : Int
  packages_count : Option Nat
deriving DecidableEq

/-- Model of `mcp/models.py` `PackageUpdate`. -/
structure PackageUpdateItem where
  name : PyStr
  old_version : PyStr
  new_version : PyStr
deriving DecidableEq

/-- Model of `mcp/models.py` `UpdateReport` (`update_date` kept as the ISO string it
was grouped by). -/
structure UpdateReport where
  id : Nat
  hostname : PyStr
  os : PyStr
  update_date : PyStr
  updated_packages : List PackageUpdateItem
deriving DecidableEq

/-- Payload of a search result (`data` is the matched entity's dict). -/
inductive SearchData where
  | host (h : Host)
  | package (p : PackageInfo)
  | report (r : UpdateReport)
deriving DecidableEq

/-- Model of `mcp/models.py` `SearchResult`; the float ladder
{1.0, 0.9, 0.8, 0.7} is modelled as {10, 9, 8, 7}. -/
structure SearchResult where
  result_type : PyStr
  data : SearchData
  relevance_score : Nat
deriving DecidableEq

/-- Model of `mcp/models.py` `SearchResponse`. -/
structure SearchResponse where
  query : PyStr
  results : List SearchResult
  total_results : Nat
deriving DecidableEq

/-- Host-category results, in host order: substring match on hostname or
OS, score 1.0 for an exact (lower-cased) hostname match, else 0.8. -/
def hostSearchResults (ql : PyStr) (hosts : List Host) : List SearchResult :=
  hosts.filterMap (fun h =>
    if pyIn ql (pyLower h.hostname) || pyIn ql (pyLower h.os) then
      some { result_type := "host".toList
             data := .host h
             relevance_score := if ql = pyLower h.hostname then 10 else 8 }
    else none)

/-- Package-category results, in package order: substring match on the
name, score 1.0 for an exact match, else 0.8. -/
def packageSearchResults (ql : PyStr) (packages : List PackageInfo) :
    List SearchResult :=
  packages.filterMap (fun p =>
    if pyIn ql (pyLower p.name) then
      some { result_type := "package".toList
             data := .package p
             relevance_score := if ql = pyLower p.name then 10 else 8 }
    else none)

/-- The `match_score` of a report: starts at 0, max-combined with 0.9 on a
hostname match, 0.7 on an OS match and 0.8 on any package-name match. -/
def reportMatchScore (ql : PyStr) (r : UpdateReport) : Nat :=
  let m1 := if pyIn ql (pyLower r.hostname) then max 0 9 else 0
  let m2 := if pyIn ql (pyLower r.os) then max m1 7 else m1
  r.updated_packages.foldl
    (fun m p => if pyIn ql (pyLower p.name) then max m 8 else m) m2

/-- Report-category results, in report order: kept when `match_score > 0`. -/
def reportSearchResults (ql : PyStr) (reports : List UpdateReport) :
    List SearchResult :=
  reports.filterMap (fun r =>
    let ms := reportMatchScore ql r
    if 0 < ms then
      some { result_type := "report".toList, data := .report r,
             relevance_score := ms }
    else none)

/-- Model of `if not result_type or result_type == c`: Python truthiness, so `None`
and the empty string both enable every category. -/
def rtAllows (rt : Option PyStr) (c : PyStr) : Bool :=
  match rt with
  | none => true
  | some s => s = [] || s = c

/-- A category fetch inside `search`: an exception is caught and logged
and the category contributes no results. -/
def categoryItems : Except PyStr (List α) → List α
  | .ok l => l
  | .error _ => []

/-- The result list produced by `search` before sorting: hosts, then
packages, then reports. -/
def searchProduced (q : PyStr) (rt : Option PyStr)
    (hostsE : Except PyStr (List Host))
    (packagesE : Except PyStr (List PackageInfo))
    (reportsE : Except PyStr (List UpdateReport)) : List SearchResult :=
  let ql := pyLower q
  (if rtAllows rt ("host".toList) then hostSearchResults ql (categoryItems hostsE)
   else [])
  ++ (if rtAllows rt ("package".toList) then
        packageSearchResults ql (categoryItems packagesE)
      else [])
  ++ (if rtAllows rt ("report".toList) then
        reportSearchResults ql (categoryItems reportsE)
      else [])

/-- Model of `MCPTools.search`: produce, stable-sort by descending relevance score,
cap at 50. -/
def search (q : PyStr) (rt : Option PyStr)
    (hostsE : Except PyStr (List Host))
    (packagesE : Except PyStr (List PackageInfo))
    (reportsE : Except PyStr (List UpdateReport)) : SearchResponse :=
  let results := (pySort (fun a b => decide (b.relevance_score ≤ a.relevance_score))
    (searchProduced q rt hostsE packagesE reportsE)).take 50
  { query := q, results := results, total_results := results.length }

/-! ## Derived descriptions used in theorem statements -/

/-- Records contributed by the fleet-wide loop, host by host: the fetched
items of successful hosts, nothing for failing hosts. -/
def itemsFrom (fetch : PyStr → Nat → Nat → FetchResult) (limit : Nat) :
    List PyStr → List URecord
  | [] => []
  | h :: rest =>
    (match fetch h limit 0 with
     | .ok items => items
     | .error _ => []) ++ itemsFrom fetch limit rest

/-- Whether a per-host fetch outcome is a logged-and-skipped failure
(an HTTP error other than 404). -/
def isLoggedFailure : FetchResult → Bool
  | .error (.httpError s) => decide (s ≠ 404)
  | _ => false

/-- Whether a fetch succeeded. -/
def fetchOk : FetchResult → Bool
  | .ok _ => true
  | .error _ => false

instance {ε α : Type} [DecidableEq ε] [DecidableEq α] :
    DecidableEq (Except ε α) := fun x y =>
  match x, y with
  | .ok a, .ok b =>
    if h : a = b then isTrue (by rw [h])
    else isFalse (by intro hh; injection hh; contradiction)
  | .error a, .error b =>
    if h : a = b then isTrue (by rw [h])
    else isFalse (by intro hh; injection hh; contradiction)
  | .ok _, .error _ => isFalse (fun hh => Except.noConfusion hh)
  | .error _, .ok _ => isFalse (fun hh => Except.noConfusion hh)

/-- Concatenation of per-host histories in roster order. -/
def concatHistories (hist : PyStr → List URecord) : List PyStr → List URecord
  | [] => []
  | h :: rest => hist h ++ concatHistories hist rest

/-- A record whose `update_date` is nonempty and parses
(`date.fromisoformat` succeeds). -/
def hasParseableDate (parse : PyStr → Option Int) (u : URecord) : Bool :=
  decide (u.update_date ≠ []) && (parse u.update_date).isSome

/-! ## Concrete fixtures for counterexamples, scenarios and witnesses -/

/-- A date parser that rejects everything (dates never looked at). -/
def parse0 : PyStr → Option Int := fun _ => none

/-- C1: a single host with two records, newest first (backend order). -/
def c1rNew : URecord :=
  ⟨"h".toList, [], "2024-01-02".toList, "pkg".toList, [], "2".toList⟩

def c1rOld : URecord :=
  ⟨"h".toList, [], "2024-01-01".toList, "pkg".toList, [], "1".toList⟩

def c1hist : PyStr → List URecord := fun _ => [c1rNew, c1rOld]

/-- The backend contract for C1: `/history/{h}?limit&offset` returns the
date-descending history sliced by `offset`/`limit`. -/
def c1fetch : PyStr → Nat → Nat → FetchResult := fun h limit offset =>
  .ok (((c1hist h).drop offset).take limit)

/-- C2: three records of package "p", `new_version`s in first-seen order
"2.0", "1.0", "1.0" — the mode is "1.0". -/
def c2r1 : URecord := ⟨"h1".toList, [], [], "p".toList, [], "2.0".toList⟩

def c2r2 : URecord := ⟨"h1".toList, [], [], "p".toList, [], "1.0".toList⟩

def c2updates : List URecord := [c2r1, c2r2, c2r2]

/-- C3: a backend answering 503, 503, then 200 "ok". -/
def out503 : Nat → Option HttpResponse := fun i =>
  if i = 0 ∨ i = 1 then some ⟨503, "e".toList⟩ else some ⟨200, "ok".toList⟩

/-- C4: host "g" has no history (404), host "d" has one record. -/
def c4rec : URecord :=
  ⟨"d".toList, "os".toList, "2024-02-02".toList, "curl".toList, "1".toList, "2".toList⟩

def c4fetch : PyStr → Nat → Nat → FetchResult := fun h _ _ =>
  if h = "g".toList then .error (.httpError 404) else .ok [c4rec]

/-- C5 counterexample: host "a" exhausts connection retries, host "b" has
one record. -/
def c5rec : URecord :=
  ⟨"b".toList, "os".toList, "2024-01-01".toList, "pkg".toList, "1".toList, "2".toList⟩

def c5fetch : PyStr → Nat → Nat → FetchResult := fun h _ _ =>
  if h = "a".toList then .error .connError else .ok [c5rec]

/-- C5 witness: host "c" fails with HTTP 500, host "d" has one record. -/
def c5wrec : URecord :=
  ⟨"d".toList, "os".toList, "2024-03-03".toList, "zsh".toList, "1".toList, "2".toList⟩

def c5wfetch : PyStr → Nat → Nat → FetchResult := fun h _ _ =>
  if h = "c".toList then .error (.httpError 500) else .ok [c5wrec]

/-- C6 scenario parser: day ordinals with today = 100 ("2024-04-10"),
40 days earlier = 60 ("2024-03-01"); everything else fails to parse. -/
def parseC : PyStr → Option Int := fun s =>
  if s = "2024-04-10".toList then some 100
  else if s = "2024-03-01".toList then some 60
  else none

/-- C6 scenario: host A updated today (nginx 1.0→1.1). -/
def recA : URecord :=
  ⟨"A".toList, "ubuntu".toList, "2024-04-10".toList, "nginx".toList,
   "1.0".toList, "1.1".toList⟩

/-- C6 scenario: host B updated 40 days ago (curl 7.0→7.1). -/
def recB : URecord :=
  ⟨"B".toList, "centos".toList, "2024-03-01".toList, "curl".toList,
   "7.0".toList, "7.1".toList⟩

def scenarioHosts : List PyStr := ["A".toList, "B".toList]

def scenarioUpdates : List URecord := [recA, recB]

/-- C7 witness: a record whose `update_date` does not parse. -/
def badDateRec : URecord :=
  ⟨"hb".toList, "os".toList, "not-a-date".toList, "zlib".toList,
   "1".toList, "2".toList⟩

/-- C10 witness: one record whose name differs from the queried package. -/
def w10rec : URecord :=
  ⟨"h".toList, [], [], "other".toList, [], "1.0".toList⟩

/-! ## General lemmas -/

theorem firstSeenDedupAux_mem [DecidableEq α] (a : α) :
    ∀ (l seen : List α), a ∈ firstSeenDedupAux seen l ↔ a ∈ l ∧ a ∉ seen := by
  intro l
  induction l with
  | nil => intro seen; simp [firstSeenDedupAux]
  | cons b rest ih =>
    intro seen
    by_cases hb : b ∈ seen
    · rw [firstSeenDedupAux, if_pos hb, ih]
      constructor
      · rintro ⟨h1, h2⟩; exact ⟨List.mem_cons_of_mem _ h1, h2⟩
      · rintro ⟨h1, h2⟩
        rcases List.mem_cons.mp h1 with h1 | h1
        · exact absurd (h1 ▸ hb) h2
        · exact ⟨h1, h2⟩
    · rw [firstSeenDedupAux, if_neg hb]
      by_cases hab : a = b
      · subst hab
        simp [hb]
      · rw [List.mem_cons, ih]
        simp only [List.mem_cons, hab, false_or]

theorem firstSeenDedup_mem [DecidableEq α] (a : α) (l : List α) :
    a ∈ firstSeenDedup l ↔ a ∈ l := by
  rw [firstSeenDedup, firstSeenDedupAux_mem]
  simp

/-- Without a connection error the fleet loop succeeds with the
concatenated items of the successful hosts, logging exactly the hosts that
failed with a non-404 HTTP error. -/
theorem aggregate_hosts_ok (fetch : PyStr → Nat → Nat → FetchResult)
    (limit : Nat) (hosts : List PyStr)
    (hconn : ∀ h ∈ hosts, fetch h limit 0 ≠ .error .connError) :
    aggregate_hosts fetch limit hosts =
      .ok (itemsFrom fetch limit hosts,
           hosts.filter (fun h => isLoggedFailure (fetch h limit 0))) := by
  induction hosts with
  | nil => rfl
  | cons h rest ih =>
    have hr : ∀ h' ∈ rest, fetch h' limit 0 ≠ .error .connError :=
      fun h' hm => hconn h' (List.mem_cons_of_mem _ hm)
    have hh := hconn h (List.mem_cons_self _ _)
    cases hf : fetch h limit 0 with
    | ok items =>
      simp [aggregate_hosts, hf, ih hr, itemsFrom, List.filter_cons,
        isLoggedFailure]
    | error e =>
      cases e with
      | httpError s =>
        by_cases hs : s = 404
        · subst hs
          simp [aggregate_hosts, hf, ih hr, itemsFrom, List.filter_cons,
            isLoggedFailure]
        · simp [aggregate_hosts, hf, hs, ih hr, itemsFrom, List.filter_cons,
            isLoggedFailure]
      | connError => exact absurd hf hh

theorem itemsFrom_eq_concatHistories (fetch : PyStr → Nat → Nat → FetchResult)
    (limit : Nat) (g : PyStr → List URecord) :
    ∀ hosts : List PyStr, (∀ h ∈ hosts, fetch h limit 0 = .ok (g h)) →
      itemsFrom fetch limit hosts = concatHistories g hosts := by
  intro hosts
  induction hosts with
  | nil => intro _; rfl
  | cons h rest ih =>
    intro hall
    rw [itemsFrom, concatHistories, hall h (List.mem_cons_self _ _),
      ih (fun h' hm => hall h' (List.mem_cons_of_mem _ hm))]

theorem concatHistories_congr (f g : PyStr → List URecord) :
    ∀ hosts : List PyStr, (∀ h ∈ hosts, f h = g h) →
      concatHistories f hosts = concatHistories g hosts := by
  intro hosts
  induction hosts with
  | nil => intro _; rfl
  | cons h rest ih =>
    intro hall
    rw [concatHistories, concatHistories, hall h (List.mem_cons_self _ _),
      ih (fun h' hm => hall h' (List.mem_cons_of_mem _ hm))]

/-- A `filterMap` ignores a `filter` that only removes elements it maps to
`none` anyway. -/
theorem filterMap_filter_of_none {α β : Type} (p : α → Bool) (f : α → Option β)
    (hpf : ∀ a, p a = false → f a = none) :
    ∀ l : List α, (l.filter p).filterMap f = l.filterMap f := by
  intro l
  induction l with
  | nil => rfl
  | cons a rest ih =>
    cases hp : p a with
    | true => simp [List.filter_cons, hp, List.filterMap_cons, ih]
    | false => simp [List.filter_cons, hp, List.filterMap_cons, hpf a hp, ih]

/-! ## Claim theorems -/

/-- C10: if `get_all_updates(package=p)` returned a non-empty record list
in which no record's name equals `p` exactly, `get_package_details p` does
not raise "Package not found" (the check is on the unfiltered list): it
returns a `PackageInfo` with name `p`, empty hosts, no current version and
no last-updated date. -/
theorem c10_no_exact_match_yields_empty_package
    (parse : PyStr → Option Int) (p : PyStr) (updates : List URecord)
    (hne : updates ≠ []) (hnone : ∀ u ∈ updates, u.name ≠ p) :
    get_package_details parse p updates =
      .ok { name := p, current_version := none, hosts := [], last_updated := none } := by
  have hfil : recordsForPackage updates p = [] := by
    rw [recordsForPackage, List.filter_eq_nil_iff]
    intro u hu
    simpa using hnone u hu
  simp [get_package_details, hne, hfil, versionsListOf, counterMostCommonOne,
    firstSeenDedup, firstSeenDedupAux, lastUpdatedOf]

/-- Witness for C10 at a concrete input. -/
theorem c10_no_exact_match_yields_empty_package_witness :
    get_package_details parse0 ("p".toList) [w10rec] =
      .ok { name := "p".toList, current_version := none, hosts := [],
            last_updated := none } :=
  c10_no_exact_match_yields_empty_package parse0 ("p".toList) [w10rec]
    (by decide) (by decide)

/-- C4: a 404 on the single-host branch of `get_all_updates` yields the
empty list (no exception); on the fleet-wide branch, hosts answering 404
are excluded silently (nothing logged) while the records of the remaining
hosts are still merged, sorted and paginated. -/
theorem c4_404_yields_empty_and_is_skipped :
    (∀ (fetch : PyStr → Nat → Nat → FetchResult) (hosts : List PyStr)
        (limit offset : Nat) (h : PyStr), h ≠ [] →
        fetch h limit offset = .error (.httpError 404) →
        get_all_updates fetch hosts limit offset (some h) = .ok [])
    ∧ (∀ (fetch : PyStr → Nat → Nat → FetchResult) (hosts : List PyStr)
        (limit offset : Nat),
        (∀ h ∈ hosts, fetch h limit 0 = .error (.httpError 404) ∨
          fetchOk (fetch h limit 0) = true) →
        aggregate_hosts fetch limit hosts = .ok (itemsFrom fetch limit hosts, [])
        ∧ get_all_updates fetch hosts limit offset none =
            .ok (sortAndPaginate (itemsFrom fetch limit hosts) limit offset)) := by
  constructor
  · intro fetch hosts limit offset h hne h404
    simp [get_all_updates, hne, h404]
  · intro fetch hosts limit offset hok
    have hconn : ∀ h ∈ hosts, fetch h limit 0 ≠ .error .connError := by
      intro h hm
      rcases hok h hm with h1 | h1
      · simp [h1]
      · cases hfe : fetch h limit 0 with
        | ok _ => simp
        | error e => rw [hfe] at h1; simp [fetchOk] at h1
    have hfilter : hosts.filter (fun h => isLoggedFailure (fetch h limit 0)) = [] := by
      rw [List.filter_eq_nil_iff]
      intro h hm
      rcases hok h hm with h1 | h1
      · simp [h1, isLoggedFailure]
      · cases hfe : fetch h limit 0 with
        | ok _ => simp [isLoggedFailure]
        | error e => rw [hfe] at h1; simp [fetchOk] at h1
    have hagg := aggregate_hosts_ok fetch limit hosts hconn
    rw [hfilter] at hagg
    exact ⟨hagg, by simp [get_all_updates, fleetUpdates, hagg]⟩

/-- Witness for C4 at a concrete input: the ghost host "g" 404s on both
branches; the fleet-wide call still returns host "d"'s record. -/
theorem c4_404_yields_empty_and_is_skipped_witness :
    get_all_updates c4fetch ["g".toList, "d".toList] 50 0 (some ("g".toList)) = .ok []
    ∧ get_all_updates c4fetch ["g".toList, "d".toList] 50 0 none = .ok [c4rec] := by
  constructor
  · exact c4_404_yields_empty_and_is_skipped.1 c4fetch ["g".toList, "d".toList]
      50 0 ("g".toList) (by decide) (by decide)
  · exact ((c4_404_yields_empty_and_is_skipped.2 c4fetch ["g".toList, "d".toList]
      50 0 (by decide)).2).trans (by decide)

/-- C5 counterexample: the fleet-wide loop catches only `BackendHTTPError`;
a connection failure (retry exhaustion) for host "a" propagates, so host
"b"'s records are NOT returned, contrary to the claim that any non-404
failure is logged and skipped. -/
theorem c5_counterexample :
    get_all_updates c5fetch ["a".toList, "b".toList] 50 0 none =
      .error .connError
    ∧ get_all_updates c5fetch ["a".toList, "b".toList] 50 0 none ≠
        .ok [c5rec] := by
  constructor
  · decide
  · decide

/-- C5 amended: during a fleet-wide `get_all_updates`, every host failing
with a backend HTTP error other than 404 is logged and skipped and the
remaining hosts' records are still returned; a `BackendConnectionError`
is not caught (it propagates and fails the whole call). -/
theorem c5_non404_http_errors_logged_and_skipped
    (fetch : PyStr → Nat → Nat → FetchResult) (hosts : List PyStr)
    (limit offset : Nat)
    (hconn : ∀ h ∈ hosts, fetch h limit 0 ≠ .error .connError) :
    get_all_updates fetch hosts limit offset none =
      .ok (sortAndPaginate (itemsFrom fetch limit hosts) limit offset)
    ∧ aggregate_hosts fetch limit hosts =
        .ok (itemsFrom fetch limit hosts,
             hosts.filter (fun h => isLoggedFailure (fetch h limit 0))) := by
  have hagg := aggregate_hosts_ok fetch limit hosts hconn
  exact ⟨by simp [get_all_updates, fleetUpdates, hagg], hagg⟩

/-- Witness for the amended C5: host "c" fails with HTTP 500 and is logged
and skipped; host "d"'s record is still returned. -/
theorem c5_non404_http_errors_logged_and_skipped_witness :
    get_all_updates c5wfetch ["c".toList, "d".toList] 50 0 none = .ok [c5wrec]
    ∧ aggregate_hosts c5wfetch 50 ["c".toList, "d".toList] =
        .ok ([c5wrec], ["c".toList]) := by
  have h := c5_non404_http_errors_logged_and_skipped c5wfetch
    ["c".toList, "d".toList] 50 0 (by decide)
  exact ⟨h.1.trans (by decide), h.2.trans (by decide)⟩

/-- C2 (code bug): `list_packages` collects `new_version`s into a set
before counting, so every count is 1 and `most_common` returns the first
element in set-iteration order instead of the mode; on records with
versions "2.0", "1.0", "1.0" it reports current_version "2.0" while
`get_package_details` (which counts the version list) reports the true
first-seen mode "1.0" for the same records. -/
theorem c2_list_packages_loses_version_counts :
    (list_packages parse0 c2updates).map (fun p => (p.name, p.current_version)) =
      [("p".toList, some ("2.0".toList))]
    ∧ get_package_details parse0 ("p".toList) c2updates =
        .ok { name := "p".toList, current_version := some ("1.0".toList),
              hosts := ["h1".toList], last_updated := none } := by
  constructor
  · decide
  · decide

/-- C1 counterexample: with one host whose filtered history has two
records, `limit = 1`, `offset = 1`, the fleet-wide call fetches only the
host's newest record (per-host `limit`), so it returns `[]` while the
slice `[1:2]` of the complete sorted collection is the older record. -/
theorem c1_counterexample :
    get_all_updates c1fetch ["h".toList] 1 1 none = .ok []
    ∧ sortAndPaginate (concatHistories c1hist ["h".toList]) 1 1 = [c1rOld]
    ∧ (Except.ok ([] : List URecord) : FetchResult) ≠ .ok [c1rOld] := by
  refine ⟨by decide, by decide, by decide⟩

/-- C1 amended: each host is fetched with the caller's `limit` (offset 0),
so only the first `limit` records of its date-descending filtered history
participate in the merge; the result is the slice `[O:O+L]` of the stable
date-descending sort of the concatenation of these truncated histories.
The equality with the slice of the complete collection claimed originally
holds whenever every host's filtered history has at most `limit` records. -/
theorem c1_fleet_pagination_over_truncated_merge
    (fetch : PyStr → Nat → Nat → FetchResult) (hist : PyStr → List URecord)
    (hosts : List PyStr) (limit offset : Nat)
    (hfetch : ∀ h ∈ hosts, fetch h limit 0 = .ok ((hist h).take limit)) :
    get_all_updates fetch hosts limit offset none =
      .ok (sortAndPaginate
        (concatHistories (fun h => (hist h).take limit) hosts) limit offset)
    ∧ ((∀ h ∈ hosts, (hist h).length ≤ limit) →
        get_all_updates fetch hosts limit offset none =
          .ok (sortAndPaginate (concatHistories hist hosts) limit offset)) := by
  have hconn : ∀ h ∈ hosts, fetch h limit 0 ≠ .error .connError := by
    intro h hm
    rw [hfetch h hm]
    simp
  have hagg := aggregate_hosts_ok fetch limit hosts hconn
  have hitems := itemsFrom_eq_concatHistories fetch limit
    (fun h => (hist h).take limit) hosts hfetch
  constructor
  · simp [get_all_updates, fleetUpdates, hagg, hitems]
  · intro hlen
    have hfull : concatHistories (fun h => (hist h).take limit) hosts =
        concatHistories hist hosts :=
      concatHistories_congr _ _ hosts
        (fun h hm => List.take_of_length_le (hlen h hm))
    simp [get_all_updates, fleetUpdates, hagg, hitems, hfull]

/-- Witness for the amended C1 at a concrete input (limit large enough for
the full histories). -/
theorem c1_fleet_pagination_over_truncated_merge_witness :
    get_all_updates c1fetch ["h".toList] 2 0 none = .ok [c1rNew, c1rOld] :=
  (((c1_fleet_pagination_over_truncated_merge c1fetch c1hist
      ["h".toList] 2 0 (by decide)).2 (by decide))).trans (by decide)

/-- Step lemma: a 5xx response with retries remaining causes a backoff of
`2 ^ retryCount` seconds and a retry. -/
theorem make_request_step_5xx (out : Nat → Option HttpResponse)
    (mr j : Nat) (r : HttpResponse) (hj : j < mr) (hout : out j = some r)
    (h5 : 500 ≤ r.status) :
    make_request out mr j =
      ((make_request out mr (j + 1)).1,
        2 ^ j :: (make_request out mr (j + 1)).2) := by
  rw [make_request.eq_def, hout]
  simp only []
  rw [if_pos (le_trans (by norm_num) h5), dif_pos ⟨h5, hj⟩]

/-- Step lemma: a response with status < 400 is returned at once. -/
theorem make_request_step_success (out : Nat → Option HttpResponse)
    (mr j : Nat) (r : HttpResponse) (hout : out j = some r)
    (hlt : r.status < 400) :
    make_request out mr j = (.success r, []) := by
  rw [make_request.eq_def, hout]
  simp only []
  rw [if_neg (by omega)]

/-- Unbroken 5xx answers: from attempt `j` with `j + n = mr`, the request
retries through attempt `mr` (backoffs `2^j, ..., 2^(mr-1)`) and raises
`BackendHTTPError` with the last attempt's status and body. -/
theorem make_request_all_5xx (out : Nat → Option HttpResponse) (mr : Nat)
    (f : Nat → HttpResponse)
    (hresp : ∀ i, i ≤ mr → out i = some (f i))
    (h5 : ∀ i, i ≤ mr → 500 ≤ (f i).status) :
    ∀ n j, j + n = mr →
      make_request out mr j =
        (.httpError (f mr).status (f mr).body, (List.range' j n).map (2 ^ ·)) := by
  intro n
  induction n with
  | zero =>
    intro j hj
    have hj' : j = mr := by omega
    subst hj'
    rw [make_request.eq_def, hresp j le_rfl]
    simp only []
    rw [if_pos (le_trans (by norm_num) (h5 j le_rfl)), dif_neg (by omega)]
    rfl
  | succ n ih =>
    intro j hj
    have hjmr : j ≤ mr := by omega
    rw [make_request_step_5xx out mr j (f j) (by omega) (hresp j hjmr)
      (h5 j hjmr)]
    rw [ih (j + 1) (by omega)]
    simp [List.range']

/-- Unbroken connection failures: from attempt `j` with `j + n = mr`, the
request retries through attempt `mr` and raises `BackendConnectionError`
after `mr + 1` attempts. -/
theorem make_request_all_conn (out : Nat → Option HttpResponse) (mr : Nat)
    (hnone : ∀ i, i ≤ mr → out i = none) :
    ∀ n j, j + n = mr →
      make_request out mr j =
        (.connError (mr + 1), (List.range' j n).map (2 ^ ·)) := by
  intro n
  induction n with
  | zero =>
    intro j hj
    have hj' : j = mr := by omega
    subst hj'
    rw [make_request.eq_def, hnone j le_rfl]
    simp only []
    rw [dif_neg (by omega)]
    rfl
  | succ n ih =>
    intro j hj
    rw [make_request.eq_def, hnone j (by omega)]
    simp only []
    rw [dif_pos (by omega : j < mr)]
    rw [ih (j + 1) (by omega)]
    simp [List.range']

/-- C3: per-request retry semantics of `_make_request`.  A 4xx response
raises `BackendHTTPError` immediately on the first attempt with no retry
(empty backoff list); unbroken 5xx answers are retried with backoffs
`2^0, ..., 2^(max_retries-1)` and then raise `BackendHTTPError` with the
last attempt's status and body; unbroken connection failures are retried
the same way and then raise `BackendConnectionError` after
`max_retries + 1` attempts; and a request answered 503, 503, then 200
within `max_retries = 3` succeeds with the 200 response after backoffs
1 and 2 seconds. -/
theorem c3_retry_semantics :
    (∀ (out : Nat → Option HttpResponse) (mr s : Nat) (b : PyStr),
      out 0 = some ⟨s, b⟩ → 400 ≤ s → s < 500 →
      make_request out mr 0 = (.httpError s b, []))
    ∧ (∀ (out : Nat → Option HttpResponse) (mr : Nat) (f : Nat → HttpResponse),
        (∀ i, i ≤ mr → out i = some (f i)) →
        (∀ i, i ≤ mr → 500 ≤ (f i).status) →
        make_request out mr 0 =
          (.httpError (f mr).status (f mr).body, (List.range mr).map (2 ^ ·)))
    ∧ (∀ (out : Nat → Option HttpResponse) (mr : Nat),
        (∀ i, i ≤ mr → out i = none) →
        make_request out mr 0 =
          (.connError (mr + 1), (List.range mr).map (2 ^ ·)))
    ∧ make_request out503 3 0 = (.success ⟨200, "ok".toList⟩, [1, 2]) := by
  refine ⟨?_, ?_, ?_, ?_⟩
  · intro out mr s b hout h4 hlt
    rw [make_request.eq_def, hout]
    simp only []
    rw [if_pos h4, dif_neg (by omega)]
  · intro out mr f hresp h5
    rw [List.range_eq_range']
    exact make_request_all_5xx out mr f hresp h5 mr 0 (by omega)
  · intro out mr hnone
    rw [List.range_eq_range']
    exact make_request_all_conn out mr hnone mr 0 (by omega)
  · rw [make_request_step_5xx out503 3 0 ⟨503, "e".toList⟩ (by omega) rfl
      (by norm_num)]
    rw [make_request_step_5xx out503 3 1 ⟨503, "e".toList⟩ (by omega) rfl
      (by norm_num)]
    rw [make_request_step_success out503 3 2 ⟨200, "ok".toList⟩ rfl
      (by norm_num)]
    decide

/-- Witness for C3 at concrete inputs: a 404 is never retried; a backend
answering 503 forever exhausts 2 retries and raises the typed HTTP error;
a dead connection exhausts 2 retries and raises the connection error. -/
theorem c3_retry_semantics_witness :
    make_request (fun _ => some ⟨404, "nf".toList⟩) 3 0 =
      (.httpError 404 "nf".toList, [])
    ∧ make_request (fun _ => some ⟨503, "e".toList⟩) 2 0 =
        (.httpError 503 "e".toList, [1, 2])
    ∧ make_request (fun _ => none) 2 0 = (.connError 3, [1, 2]) := by
  refine ⟨?_, ?_, ?_⟩
  · exact c3_retry_semantics.1 (fun _ => some ⟨404, "nf".toList⟩) 3 404
      "nf".toList rfl (by norm_num) (by norm_num)
  · exact (c3_retry_semantics.2.1 (fun _ => some ⟨503, "e".toList⟩) 2
      (fun _ => ⟨503, "e".toList⟩) (fun _ _ => rfl) (fun _ _ => by norm_num))
  · exact c3_retry_semantics.2.2.1 (fun _ => none) 2 (fun _ _ => rfl)

/-- C6: `get_fleet_statistics` counts a host as active in the last `n`
days iff some record of that host has a parseable `update_date ≥ today-n`
(boundary day inclusive); the 7/30-day counters are the sizes of these
sets; and on the scenario fleet (host A updated today with nginx, host B
updated 40 days ago with curl) it reports 2 hosts, 7-day and 30-day
active counts of 1, and both packages with update count 1. -/
theorem c6_activity_windows_inclusive :
    (∀ (parse : PyStr → Option Int) (today n : Int) (updates : List URecord)
        (h : PyStr), parse [] = none →
        (h ∈ activeHostsSet parse (today - n) updates ↔
          ∃ u ∈ updates, u.hostname = h ∧
            ∃ d, parse u.update_date = some d ∧ today - n ≤ d))
    ∧ (∀ (parse : PyStr → Option Int) (today : Int) (hosts : List PyStr)
        (updates : List URecord),
        (get_fleet_statistics parse today hosts updates).active_hosts_last_7_days =
          (activeHostsSet parse (today - 7) updates).length
        ∧ (get_fleet_statistics parse today hosts updates).active_hosts_last_30_days =
            (activeHostsSet parse (today - 30) updates).length)
    ∧ get_fleet_statistics parseC 100 scenarioHosts scenarioUpdates =
        { total_hosts := 2, total_reports := 2, total_packages := 2,
          active_hosts_last_7_days := 1, active_hosts_last_30_days := 1,
          most_updated_packages := [("nginx".toList, 1), ("curl".toList, 1)],
          recent_activity := [⟨"2024-04-10".toList, "A".toList, "nginx".toList,
            "1.0".toList, "1.1".toList⟩] } := by
  refine ⟨?_, fun _ _ _ _ => ⟨rfl, rfl⟩, by decide⟩
  intro parse today n updates h hparse
  rw [activeHostsSet, firstSeenDedup_mem, activeHostnames, List.mem_filterMap]
  constructor
  · rintro ⟨u, hu, hf⟩
    by_cases hd : u.update_date = []
    · rw [if_pos hd] at hf
      simp at hf
    · rw [if_neg hd] at hf
      cases hp : parse u.update_date with
      | none => rw [hp] at hf; simp at hf
      | some d =>
        rw [hp] at hf
        by_cases hc : today - n ≤ d
        · simp only [hc, if_true] at hf
          injection hf with hf
          exact ⟨u, hu, hf, d, hp, hc⟩
        · simp [hc] at hf
  · rintro ⟨u, hu, hh, d, hp, hc⟩
    refine ⟨u, hu, ?_⟩
    have hd : u.update_date ≠ [] := by
      intro h0
      rw [h0, hparse] at hp
      simp at hp
    rw [if_neg hd, hp]
    simp only [hc, if_true]
    rw [hh]

/-- Witness for C6 at the scenario input: host A is 7-day active, with the
existence side of the iff instantiated by its record. -/
theorem c6_activity_windows_inclusive_witness :
    "A".toList ∈ activeHostsSet parseC (100 - 7) scenarioUpdates ↔
      ∃ u ∈ scenarioUpdates, u.hostname = "A".toList ∧
        ∃ d, parseC u.update_date = some d ∧ 100 - 7 ≤ d :=
  c6_activity_windows_inclusive.1 parseC 100 7 scenarioUpdates ("A".toList)
    (by decide)

/-- A record rejected by `hasParseableDate` has an empty or unparseable
date. -/
theorem hasParseableDate_false (parse : PyStr → Option Int) (a : URecord)
    (hp : hasParseableDate parse a = false) :
    a.update_date = [] ∨ parse a.update_date = none := by
  by_cases hd : a.update_date = []
  · exact Or.inl hd
  · cases hpv : parse a.update_date with
    | none => exact Or.inr rfl
    | some d =>
      rw [hasParseableDate, hpv] at hp
      simp [hd] at hp

/-- C7: records with a missing or unparseable `update_date` are excluded
from the date-based aggregations (removing them changes neither the
active-host counters nor the recent-activity feed), yet every record
counts toward `total_reports` and every nonempty package name of any
record is in the `unique_packages` set behind `total_packages`. -/
theorem c7_unparseable_dates_excluded_but_counted :
    (∀ (parse : PyStr → Option Int) (today : Int) (hosts : List PyStr)
        (updates : List URecord),
        (get_fleet_statistics parse today hosts updates).total_reports =
          updates.length
        ∧ (get_fleet_statistics parse today hosts updates).total_packages =
            (uniquePackages updates).length
        ∧ (get_fleet_statistics parse today hosts
              (updates.filter (hasParseableDate parse))).active_hosts_last_7_days =
            (get_fleet_statistics parse today hosts updates).active_hosts_last_7_days
        ∧ (get_fleet_statistics parse today hosts
              (updates.filter (hasParseableDate parse))).active_hosts_last_30_days =
            (get_fleet_statistics parse today hosts updates).active_hosts_last_30_days
        ∧ (get_fleet_statistics parse today hosts
              (updates.filter (hasParseableDate parse))).recent_activity =
            (get_fleet_statistics parse today hosts updates).recent_activity)
    ∧ (∀ (updates : List URecord) (u : URecord), u ∈ updates → u.name ≠ [] →
        u.name ∈ uniquePackages updates) := by
  constructor
  · intro parse today hosts updates
    have hgen : ∀ {β : Type} (f : URecord → Option β),
        (∀ a, a.update_date = [] → f a = none) →
        (∀ a, parse a.update_date = none → f a = none) →
        (updates.filter (hasParseableDate parse)).filterMap f =
          updates.filterMap f := by
      intro β f hf1 hf2
      refine filterMap_filter_of_none _ f ?_ updates
      intro a hpa
      rcases hasParseableDate_false parse a hpa with hd | hd
      · exact hf1 a hd
      · exact hf2 a hd
    have hA : ∀ c : Int,
        activeHostnames parse c (updates.filter (hasParseableDate parse)) =
          activeHostnames parse c updates := by
      intro c
      refine hgen _ (fun a hd => by simp [hd]) (fun a hd => ?_)
      by_cases hempty : a.update_date = []
      · simp [hempty]
      · simp [hempty, hd]
    have hR : recentActivityEntries parse (today - 7)
          (updates.filter (hasParseableDate parse)) =
        recentActivityEntries parse (today - 7) updates := by
      refine hgen _ (fun a hd => by simp [recentActivityEntries, hd])
        (fun a hd => ?_)
      by_cases hempty : a.update_date = []
      · simp [hempty]
      · simp [hempty, hd]
    refine ⟨rfl, rfl, ?_, ?_, ?_⟩
    · simp [get_fleet_statistics, activeHostsSet, hA]
    · simp [get_fleet_statistics, activeHostsSet, hA]
    · simp [get_fleet_statistics, hR]
  · intro updates u hu hname
    rw [uniquePackages, firstSeenDedup_mem, List.mem_filterMap]
    exact ⟨u, hu, by simp [hname]⟩

/-- Witness for C7 at a concrete input: a record with unparseable date
still contributes its package name. -/
theorem c7_unparseable_dates_excluded_but_counted_witness :
    "zlib".toList ∈ uniquePackages [badDateRec] :=
  c7_unparseable_dates_excluded_but_counted.2 [badDateRec] badDateRec
    (by decide) (by decide)

/-- C9: an exception in any one category fetch inside `search` is caught:
the response equals the one where that category contributes no results,
so the remaining categories are still searched and their results
returned. -/
theorem c9_search_category_failures_isolated
    (q : PyStr) (rt : Option PyStr) (e : PyStr)
    (hostsE : Except PyStr (List Host))
    (packagesE : Except PyStr (List PackageInfo))
    (reportsE : Except PyStr (List UpdateReport)) :
    search q rt (.error e) packagesE reportsE =
      search q rt (.ok []) packagesE reportsE
    ∧ search q rt hostsE (.error e) reportsE =
        search q rt hostsE (.ok []) reportsE
    ∧ search q rt hostsE packagesE (.error e) =
        search q rt hostsE packagesE (.ok []) :=
  ⟨rfl, rfl, rfl⟩

theorem pyOrderedInsert_of_head (ple : α → α → Bool) (a : α) (l : List α)
    (h : ∀ b ∈ l, ple a b = true) : pyOrderedInsert ple a l = a :: l := by
  cases l with
  | nil => rfl
  | cons b t => rw [pyOrderedInsert, if_pos (h b (List.mem_cons_self _ _))]

theorem pyOrderedInsert_append_of_skip (ple : α → α → Bool) (a : α)
    (u v : List α) (h : ∀ b ∈ u, ple a b = false) :
    pyOrderedInsert ple a (u ++ v) = u ++ pyOrderedInsert ple a v := by
  induction u with
  | nil => rfl
  | cons b t ih =>
    rw [List.cons_append, pyOrderedInsert,
      if_neg (by simp [h b (List.mem_cons_self _ _)]),
      ih (fun x hx => h x (List.mem_cons_of_mem _ hx)), List.cons_append]

/-- Stable descending sort of a list whose keys lie in the ladder
{10, 9, 8, 7}: the result is the four key-level blocks, each in original
order (this is both sortedness and tie stability at once). -/
theorem pySort_score_ladder {α : Type} (sc : α → Nat) (l : List α)
    (hl : ∀ x ∈ l, sc x = 10 ∨ sc x = 9 ∨ sc x = 8 ∨ sc x = 7) :
    pySort (fun a b => decide (sc b ≤ sc a)) l =
      l.filter (fun x => sc x == 10) ++ l.filter (fun x => sc x == 9)
        ++ l.filter (fun x => sc x == 8) ++ l.filter (fun x => sc x == 7) := by
  induction l with
  | nil => rfl
  | cons a t ih =>
    have ht : ∀ x ∈ t, sc x = 10 ∨ sc x = 9 ∨ sc x = 8 ∨ sc x = 7 :=
      fun x hx => hl x (List.mem_cons_of_mem _ hx)
    have hmem : ∀ (k : Nat) (b : α), b ∈ t.filter (fun x => sc x == k) →
        sc b = k := by
      intro k b hb
      have h2 := List.mem_filter.mp hb
      simpa using h2.2
    rw [pySort, ih ht]
    rcases hl a (List.mem_cons_self _ _) with ha | ha | ha | ha
    · have hall : ∀ b ∈ (t.filter (fun x => sc x == 10)
          ++ t.filter (fun x => sc x == 9) ++ t.filter (fun x => sc x == 8)
          ++ t.filter (fun x => sc x == 7)),
          (fun a b => decide (sc b ≤ sc a)) a b = true := by
        intro b hb
        simp only [List.mem_append] at hb
        have hsb : sc b ≤ 10 := by
          rcases hb with ((h | h) | h) | h
          · rw [hmem 10 b h]
          · rw [hmem 9 b h]; omega
          · rw [hmem 8 b h]; omega
          · rw [hmem 7 b h]; omega
        simp only [decide_eq_true_eq, ha]
        exact hsb
      rw [pyOrderedInsert_of_head _ _ _ hall]
      simp [List.filter_cons, ha]
    · have hskip : ∀ b ∈ t.filter (fun x => sc x == 10),
          (fun a b => decide (sc b ≤ sc a)) a b = false := by
        intro b hb
        simp only [decide_eq_false_iff_not, ha, hmem 10 b hb]
        omega
      have hall : ∀ b ∈ (t.filter (fun x => sc x == 9)
          ++ t.filter (fun x => sc x == 8) ++ t.filter (fun x => sc x == 7)),
          (fun a b => decide (sc b ≤ sc a)) a b = true := by
        intro b hb
        simp only [List.mem_append] at hb
        have hsb : sc b ≤ 9 := by
          rcases hb with (h | h) | h
          · rw [hmem 9 b h]
          · rw [hmem 8 b h]; omega
          · rw [hmem 7 b h]; omega
        simp only [decide_eq_true_eq, ha]
        exact hsb
      rw [List.append_assoc, List.append_assoc,
        pyOrderedInsert_append_of_skip _ _ _ _ hskip,
        pyOrderedInsert_of_head _ _ _ (by rw [← List.append_assoc]; exact hall)]
      simp [List.filter_cons, ha]
    · have hskip : ∀ b ∈ (t.filter (fun x => sc x == 10)
          ++ t.filter (fun x => sc x == 9)),
          (fun a b => decide (sc b ≤ sc a)) a b = false := by
        intro b hb
        simp only [List.mem_append] at hb
        simp only [decide_eq_false_iff_not, ha]
        rcases hb with h | h
        · rw [hmem 10 b h]; omega
        · rw [hmem 9 b h]; omega
      have hall : ∀ b ∈ (t.filter (fun x => sc x == 8)
          ++ t.filter (fun x => sc x == 7)),
          (fun a b => decide (sc b ≤ sc a)) a b = true := by
        intro b hb
        simp only [List.mem_append] at hb
        have hsb : sc b ≤ 8 := by
          rcases hb with h | h
          · rw [hmem 8 b h]
          · rw [hmem 7 b h]; omega
        simp only [decide_eq_true_eq, ha]
        exact hsb
      rw [show t.filter (fun x => sc x == 10) ++ t.filter (fun x => sc x == 9)
            ++ t.filter (fun x => sc x == 8) ++ t.filter (fun x => sc x == 7)
          = (t.filter (fun x => sc x == 10) ++ t.filter (fun x => sc x == 9))
            ++ (t.filter (fun x => sc x == 8) ++ t.filter (fun x => sc x == 7))
          from by simp [List.append_assoc],
        pyOrderedInsert_append_of_skip _ _ _ _ hskip,
        pyOrderedInsert_of_head _ _ _ hall]
      simp [List.filter_cons, ha]
    · have hskip : ∀ b ∈ (t.filter (fun x => sc x == 10)
          ++ t.filter (fun x => sc x == 9) ++ t.filter (fun x => sc x == 8)),
          (fun a b => decide (sc b ≤ sc a)) a b = false := by
        intro b hb
        simp only [List.mem_append] at hb
        simp only [decide_eq_false_iff_not, ha]
        rcases hb with (h | h) | h
        · rw [hmem 10 b h]; omega
        · rw [hmem 9 b h]; omega
        · rw [hmem 8 b h]; omega
      have hall : ∀ b ∈ t.filter (fun x => sc x == 7),
          (fun a b => decide (sc b ≤ sc a)) a b = true := by
        intro b hb
        simp only [decide_eq_true_eq, ha, hmem 7 b hb]
        omega
      rw [show t.filter (fun x => sc x == 10) ++ t.filter (fun x => sc x == 9)
            ++ t.filter (fun x => sc x == 8) ++ t.filter (fun x => sc x == 7)
          = (t.filter (fun x => sc x == 10) ++ t.filter (fun x => sc x == 9)
            ++ t.filter (fun x => sc x == 8)) ++ t.filter (fun x => sc x == 7)
          from by simp [List.append_assoc],
        pyOrderedInsert_append_of_skip _ _ _ _ hskip,
        pyOrderedInsert_of_head _ _ _ hall]
      simp [List.filter_cons, ha]

/-- The report `match_score` takes only the values 0, 7, 8, 9. -/
theorem reportMatchScore_values (ql : PyStr) (r : UpdateReport) :
    reportMatchScore ql r = 0 ∨ reportMatchScore ql r = 7 ∨
      reportMatchScore ql r = 8 ∨ reportMatchScore ql r = 9 := by
  have hfold : ∀ (ps : List PackageUpdateItem) (m : Nat),
      ps.foldl (fun m p => if pyIn ql (pyLower p.name) then max m 8 else m) m = m
      ∨ ps.foldl (fun m p => if pyIn ql (pyLower p.name) then max m 8 else m) m
          = max m 8 := by
    intro ps
    induction ps with
    | nil => intro m; exact Or.inl rfl
    | cons p pt ih =>
      intro m
      rw [List.foldl_cons]
      by_cases hc : pyIn ql (pyLower p.name) = true
      · rw [if_pos hc]
        rcases ih (max m 8) with h | h
        · exact Or.inr h
        · right
          rw [h, Nat.max_assoc, Nat.max_self]
      · rw [if_neg (by simp [hc])]
        exact ih m
  by_cases h1 : pyIn ql (pyLower r.hostname) = true <;>
    by_cases h2 : pyIn ql (pyLower r.os) = true <;>
      [skip; skip; skip; skip] <;>
      · rw [reportMatchScore]
        simp only [h1, h2, if_true, if_false, Bool.false_eq_true]
        first
        | (rcases hfold r.updated_packages (max (max 0 9) 7) with h | h <;>
            rw [h] <;> simp)
        | (rcases hfold r.updated_packages (max 0 9) with h | h <;>
            rw [h] <;> simp)
        | (rcases hfold r.updated_packages (max 0 7) with h | h <;>
            rw [h] <;> simp)
        | (rcases hfold r.updated_packages 0 with h | h <;>
            rw [h] <;> simp)

/-- Every produced search result carries a ladder score. -/
theorem searchProduced_scores (q : PyStr) (rt : Option PyStr)
    (hostsE : Except PyStr (List Host))
    (packagesE : Except PyStr (List PackageInfo))
    (reportsE : Except PyStr (List UpdateReport)) :
    ∀ x ∈ searchProduced q rt hostsE packagesE reportsE,
      x.relevance_score = 10 ∨ x.relevance_score = 9 ∨
        x.relevance_score = 8 ∨ x.relevance_score = 7 := by
  intro x hx
  rw [searchProduced] at hx
  simp only [List.mem_append] at hx
  rcases hx with (hx | hx) | hx
  · split at hx
    · obtain ⟨h, _, hf⟩ := List.mem_filterMap.mp hx
      split at hf
      · injection hf with hf
        rw [← hf]
        by_cases he : pyLower q = pyLower h.hostname
        · left; simp [he]
        · right; right; left; simp [he]
      · cases hf
    · simp at hx
  · split at hx
    · obtain ⟨p, _, hf⟩ := List.mem_filterMap.mp hx
      split at hf
      · injection hf with hf
        rw [← hf]
        by_cases he : pyLower q = pyLower p.name
        · left; simp [he]
        · right; right; left; simp [he]
      · cases hf
    · simp at hx
  · split at hx
    · obtain ⟨r, _, hf⟩ := List.mem_filterMap.mp hx
      simp only [] at hf
      split at hf
      · rename_i hpos
        injection hf with hf
        rw [← hf]
        rcases reportMatchScore_values (pyLower q) r with h0 | h | h | h
        · rw [h0] at hpos; omega
        · right; right; right; exact h
        · right; right; left; exact h
        · right; left; exact h
      · cases hf
    · simp at hx

/-- Helper: a relation that holds between any two members holds pairwise. -/
theorem pairwise_of_mem_pairs {α : Type} (R : α → α → Prop) :
    ∀ l : List α, (∀ a ∈ l, ∀ b ∈ l, R a b) → l.Pairwise R := by
  intro l
  induction l with
  | nil => intro _; exact List.Pairwise.nil
  | cons a t ih =>
    intro h
    refine List.Pairwise.cons
      (fun b hb => h a (List.mem_cons_self _ _) b (List.mem_cons_of_mem _ hb))
      (ih fun x hx y hy =>
        h x (List.mem_cons_of_mem _ hx) y (List.mem_cons_of_mem _ hy))

/-- C8: the search result list is the stable descending sort of the
produced results (hosts, then packages, then reports) capped at 50 after
sorting — concretely, the four score blocks each in production order,
truncated to 50; it is pairwise non-increasing in relevance score, has at
most 50 entries, and every exact match (score 1.0) ranks strictly above
every partial match. -/
theorem c8_search_ranking (q : PyStr) (rt : Option PyStr)
    (hostsE : Except PyStr (List Host))
    (packagesE : Except PyStr (List PackageInfo))
    (reportsE : Except PyStr (List UpdateReport)) :
    (search q rt hostsE packagesE reportsE).results =
      ((searchProduced q rt hostsE packagesE reportsE).filter
          (fun x => x.relevance_score == 10)
        ++ (searchProduced q rt hostsE packagesE reportsE).filter
            (fun x => x.relevance_score == 9)
        ++ (searchProduced q rt hostsE packagesE reportsE).filter
            (fun x => x.relevance_score == 8)
        ++ (searchProduced q rt hostsE packagesE reportsE).filter
            (fun x => x.relevance_score == 7)).take 50
    ∧ List.Pairwise (fun a b => b.relevance_score ≤ a.relevance_score)
        (search q rt hostsE packagesE reportsE).results
    ∧ (search q rt hostsE packagesE reportsE).results.length ≤ 50
    ∧ ∀ (i j : Fin (search q rt hostsE packagesE reportsE).results.length),
        ((search q rt hostsE packagesE reportsE).results.get i).relevance_score = 10 →
        ((search q rt hostsE packagesE reportsE).results.get j).relevance_score < 10 →
        (i : Nat) < (j : Nat) := by
  have hsc := searchProduced_scores q rt hostsE packagesE reportsE
  have hmain := pySort_score_ladder SearchResult.relevance_score
    (searchProduced q rt hostsE packagesE reportsE) hsc
  have hres : (search q rt hostsE packagesE reportsE).results =
      (pySort (fun a b => decide (b.relevance_score ≤ a.relevance_score))
        (searchProduced q rt hostsE packagesE reportsE)).take 50 := rfl
  have hmemf : ∀ (k : Nat) (b : SearchResult),
      b ∈ (searchProduced q rt hostsE packagesE reportsE).filter
        (fun x => x.relevance_score == k) → b.relevance_score = k := by
    intro k b hb
    have h2 := List.mem_filter.mp hb
    simpa using h2.2
  have hblock : ∀ k : Nat,
      List.Pairwise (fun a b : SearchResult => b.relevance_score ≤ a.relevance_score)
        ((searchProduced q rt hostsE packagesE reportsE).filter
          (fun x => x.relevance_score == k)) := by
    intro k
    refine pairwise_of_mem_pairs _ _ (fun a ha b hb => ?_)
    rw [hmemf k a ha, hmemf k b hb]
  have hpw : List.Pairwise (fun a b : SearchResult => b.relevance_score ≤ a.relevance_score)
      ((searchProduced q rt hostsE packagesE reportsE).filter
          (fun x => x.relevance_score == 10)
        ++ (searchProduced q rt hostsE packagesE reportsE).filter
            (fun x => x.relevance_score == 9)
        ++ (searchProduced q rt hostsE packagesE reportsE).filter
            (fun x => x.relevance_score == 8)
        ++ (searchProduced q rt hostsE packagesE reportsE).filter
            (fun x => x.relevance_score == 7)) := by
    refine (List.pairwise_append).mpr ⟨?_, hblock 7, ?_⟩
    · refine (List.pairwise_append).mpr ⟨?_, hblock 8, ?_⟩
      · refine (List.pairwise_append).mpr ⟨hblock 10, hblock 9, ?_⟩
        intro a ha b hb
        rw [hmemf 10 a ha, hmemf 9 b hb]
        omega
      · intro a ha b hb
        rw [hmemf 8 b hb]
        simp only [List.mem_append] at ha
        rcases ha with ha | ha
        · rw [hmemf 10 a ha]; omega
        · rw [hmemf 9 a ha]; omega
    · intro a ha b hb
      rw [hmemf 7 b hb]
      simp only [List.mem_append] at ha
      rcases ha with (ha | ha) | ha
      · rw [hmemf 10 a ha]; omega
      · rw [hmemf 9 a ha]; omega
      · rw [hmemf 8 a ha]; omega
  have hconj1 : (search q rt hostsE packagesE reportsE).results =
      ((searchProduced q rt hostsE packagesE reportsE).filter
          (fun x => x.relevance_score == 10)
        ++ (searchProduced q rt hostsE packagesE reportsE).filter
            (fun x => x.relevance_score == 9)
        ++ (searchProduced q rt hostsE packagesE reportsE).filter
            (fun x => x.relevance_score == 8)
        ++ (searchProduced q rt hostsE packagesE reportsE).filter
            (fun x => x.relevance_score == 7)).take 50 := by
    rw [hres, hmain]
  have hpw2 : List.Pairwise (fun a b : SearchResult =>
      b.relevance_score ≤ a.relevance_score)
      (search q rt hostsE packagesE reportsE).results := by
    rw [hconj1]
    exact List.Pairwise.sublist (List.take_sublist _ _) hpw
  refine ⟨hconj1, hpw2, by rw [hres]; exact List.length_take_le _ _, ?_⟩
  intro i j h10 hlt
  rcases Nat.lt_trichotomy (i : Nat) (j : Nat) with h | h | h
  · exact h
  · exfalso
    have hij : i = j := Fin.ext h
    rw [hij] at h10
    omega
  · exfalso
    have hR := (List.pairwise_iff_get.mp hpw2) j i h
    rw [h10] at hR
    omega
